import Mathlib

/-!
Verification development for the cc-switch-cli synchronization and backup
subsystem.  The data model (JSON documents, unified configuration, live
files) and the operations of the sync/backup core are embedded as
executable Lean definitions; the CLI command layer present in the sources
(`src-tauri/src/cli/commands/mcp.rs`, `src-tauri/src/cli/interactive/config.rs`)
is translated directly, while the service layer (`McpService`,
`ConfigService`, the Claude plugin integration sync), whose implementation
files are not part of the source tree, is modelled from the specification.
-/

/-- A JSON value.  Live files and launch specifications are arbitrary JSON;
the sync engine treats the values it moves around as opaque. -/
inductive JsonValue where
  | null
  | bool (b : Bool)
  | num (n : Int)
  | str (s : String)
  | arr (elems : List JsonValue)
  | obj (fields : List (String × JsonValue))

/-- A JSON object, as an ordered association list of key/value pairs
(serde_json object semantics: keys are unique in documents read from disk). -/
abbrev Doc := List (String × JsonValue)

/-- Look a key up in a document (first occurrence). -/
def lookupKey (d : Doc) (k : String) : Option JsonValue :=
  match d with
  | [] => none
  | (k', v) :: rest => if k' = k then some v else lookupKey rest k

/-- Set a key in a document: replace the first occurrence in place,
or append the pair if the key is absent. -/
def setKey (d : Doc) (k : String) (v : JsonValue) : Doc :=
  match d with
  | [] => [(k, v)]
  | (k', v') :: rest => if k' = k then (k, v) :: rest else (k', v') :: setKey rest k v

/-- Remove a key from a document, leaving every other pair untouched. -/
def removeKey (d : Doc) (k : String) : Doc :=
  match d with
  | [] => []
  | (k', v') :: rest => if k' = k then removeKey rest k else (k', v') :: removeKey rest k

/-- Modelled from the spec: LiveFileAdapter.mergeKeys — for each
`(key, some v)` set `doc[key] = v`, for each `(key, none)` remove `key`;
all other keys are left untouched.  (The adapter implementation is not in
the source tree.) -/
def mergeKeys (d : Doc) (updates : List (String × Option JsonValue)) : Doc :=
  updates.foldl
    (fun acc u =>
      match u.2 with
      | some v => setKey acc u.1 v
      | none => removeKey acc u.1)
    d

/-- The closed set of supported applications (src-tauri `AppType`). -/
inductive AppType where
  | claude
  | codex
  | gemini
deriving DecidableEq

def AppType.as_str : AppType → String
  | .claude => "claude"
  | .codex => "codex"
  | .gemini => "gemini"

/-- Per-application enablement flags of an MCP server (`server.apps`). -/
structure AppsFlags where
  claude : Bool
  codex : Bool
  gemini : Bool
deriving DecidableEq

/-- Read the flag of one application. -/
def appFlag (a : AppType) (f : AppsFlags) : Bool :=
  match a with
  | .claude => f.claude
  | .codex => f.codex
  | .gemini => f.gemini

/-- Write the flag of one application. -/
def setFlag (a : AppType) (b : Bool) (f : AppsFlags) : AppsFlags :=
  match a with
  | .claude => { f with claude := b }
  | .codex => { f with codex := b }
  | .gemini => { f with gemini := b }

/-- The flags vector that is true exactly for one application. -/
def onlyApp (a : AppType) : AppsFlags :=
  { claude := a == .claude, codex := a == .codex, gemini := a == .gemini }

/-- An MCP server entry of the unified store: display name, an opaque
launch specification (command, arguments, environment), the per-app
enablement flags and free-form tags. -/
structure McpServerEntry where
  name : String
  spec : JsonValue
  apps : AppsFlags
  tags : List String

/-- The MCP registry: mapping from globally unique server id to entry. -/
structure McpRegistry where
  servers : List (String × McpServerEntry)

/-- A provider of one application. -/
structure Provider where
  id : String
  name : String
  settings : JsonValue
  category : Option String

/-- Per-application provider configuration. -/
structure AppCfg where
  providers : List (String × Provider)
  currentProviderId : Option String

/-- The root persisted document (src-tauri `MultiAppConfig`). -/
structure MultiAppConfig where
  apps : List (String × AppCfg)
  mcp : McpRegistry

/-- The default configuration returned by `load` when no file exists. -/
def defaultConfig : MultiAppConfig :=
  { apps := [], mcp := ⟨[]⟩ }

/-- The reserved live-file key owned by the MCP sync concern. -/
def mcpServersKey : String := "mcpServers"

/-- The reserved live-file key owned by the plugin integration concern. -/
def primaryApiKey : String := "primaryApiKey"

/-- The sentinel value written under `primaryApiKey`. -/
def sentinelAny : String := "any"

/-- The provider category marking a built-in provider. -/
def officialCategory : String := "official"

/-- Typed failures of the core (spec section 7); the CLI layer in the
sources wraps most of them in a plain message (`AppError::Message`). -/
inductive AppError where
  | ioError
  | parseError
  | notFound
  | validation
  | message (s : String)

/-- Error message produced by the CLI layer when a server id is unknown.
The source text wraps the id in single quotes; the quoting is immaterial
to every property proved here. -/
def mcpServerNotFoundMsg (id : String) : String :=
  "MCP server " ++ id ++ " not found"

/-- Error message produced by the interactive layer when a path is missing. -/
def fileNotFoundMsg (path : String) : String :=
  "File not found: " ++ path

/-- The world state the core operates on: the persisted unified store, the
per-application live files (`none` = the file does not exist), the
process-wide plugin-integration flag, the backup directory, whether the
backup directory is writable (the source of `IoError` on backup), and the
external files reachable by path for import/restore (`none` = missing,
`some none` = exists but does not parse as a UnifiedConfig document,
`some (some cfg)` = parses as `cfg`). -/
structure St where
  store : MultiAppConfig
  liveFiles : AppType → Option Doc
  integrationEnabled : Bool
  backups : List (String × MultiAppConfig)
  backupDirWritable : Bool
  extFiles : String → Option (Option MultiAppConfig)

/-- The parsed content of an application's live file, or the empty object
when the file does not exist (LiveFileAdapter.readOrEmpty). -/
def liveDocOrEmpty (st : St) (a : AppType) : Doc :=
  (st.liveFiles a).getD []

/-- Write a document to an application's live file, creating it if absent
(LiveFileAdapter.write). -/
def writeLive (st : St) (a : AppType) (d : Doc) : St :=
  { st with liveFiles := fun a' => if a' = a then some d else st.liveFiles a' }

/-- Observation used by the frame theorems: the value of key `k` in
application `a`'s live file (over the empty object when the file is absent). -/
def lookupLive (st : St) (a : AppType) (k : String) : Option JsonValue :=
  lookupKey (liveDocOrEmpty st a) k

/-- Modelled from the spec: `setEnableIntegration` — persists the
process-wide plugin-integration flag; live files are not touched.  (The
implementation, `set_enable_claude_plugin_integration`, is not in the
source tree; only its tests are.) -/
def set_enable_claude_plugin_integration (b : Bool) (st : St) : St :=
  { st with integrationEnabled := b }

/-- Modelled from the spec: `syncOnSettingsToggle(enabled)` — if `enabled`
is true, set the reserved key `primaryApiKey` to the sentinel `"any"` in
the Claude live file; if false, remove the key; always through the
adapter's selective merge so unrelated keys survive. -/
def sync_claude_plugin_on_settings_toggle (enabled : Bool) (st : St) : St :=
  if enabled then
    writeLive st .claude (setKey (liveDocOrEmpty st .claude) primaryApiKey (.str sentinelAny))
  else
    writeLive st .claude (removeKey (liveDocOrEmpty st .claude) primaryApiKey)

/-- Modelled from the spec: `syncOnProviderSwitch(app, provider)` — scoped
to the one application supporting plugin integration (Claude); a no-op if
the global integration toggle is off; if on, the reserved key is removed
when the provider's `category` equals `"official"`, otherwise set to the
sentinel. -/
def sync_claude_plugin_on_provider_switch (a : AppType) (p : Provider) (st : St) : St :=
  if a = .claude then
    if st.integrationEnabled then
      if p.category = some officialCategory then
        writeLive st .claude (removeKey (liveDocOrEmpty st .claude) primaryApiKey)
      else
        writeLive st .claude (setKey (liveDocOrEmpty st .claude) primaryApiKey (.str sentinelAny))
    else st
  else st

/-- Modelled from the spec: the application-specific live representation
of the MCP servers enabled for `a` — server id mapped to the opaque launch
specification, for exactly the servers whose flag for `a` is true. -/
def projectMcp (cfg : MultiAppConfig) (a : AppType) : JsonValue :=
  .obj ((cfg.mcp.servers.filter (fun p => appFlag a p.2.apps)).map (fun p => (p.1, p.2.spec)))

/-- Modelled from the spec: the single-application projection — read the
live file, replace the whole reserved MCP key with the recomputed
representation, write back. -/
def syncAppMcp (cfg : MultiAppConfig) (a : AppType) (st : St) : St :=
  writeLive st a (setKey (liveDocOrEmpty st a) mcpServersKey (projectMcp cfg a))

/-- Does the registry contain a server with this id? -/
def containsId (servers : List (String × McpServerEntry)) (id : String) : Bool :=
  servers.any (fun p => p.1 == id)

/-- Look a server up by id. -/
def lookupServer (servers : List (String × McpServerEntry)) (id : String) :
    Option McpServerEntry :=
  match servers with
  | [] => none
  | (id', e) :: rest => if id' = id then some e else lookupServer rest id

/-- Flip the flag of application `a` on the entry with the given id. -/
def updateServers (servers : List (String × McpServerEntry)) (id : String)
    (a : AppType) (b : Bool) : List (String × McpServerEntry) :=
  match servers with
  | [] => []
  | (id', e) :: rest =>
    if id' = id then (id', { e with apps := setFlag a b e.apps }) :: updateServers rest id a b
    else (id', e) :: updateServers rest id a b

/-- Remove the entry with the given id from the registry. -/
def removeServer (servers : List (String × McpServerEntry)) (id : String) :
    List (String × McpServerEntry) :=
  servers.filter (fun p => p.1 != id)

namespace McpService

/-- Modelled from the spec: `syncAllEnabled(cfg)` — run the
single-application projection for every application, in the fixed order
claude, codex, gemini.  The persisted store is not changed. -/
def sync_all_enabled (st : St) : St :=
  syncAppMcp st.store .gemini (syncAppMcp st.store .codex (syncAppMcp st.store .claude st))

/-- Modelled from the spec: `toggleApp(cfg, serverId, app, enabled)` —
fails with `NotFoundError` if the id is absent (state untouched);
otherwise flips the flag for `app`, persists the unified configuration and
re-runs the single-application projection for that `app` only. -/
def toggle_app (st : St) (id : String) (a : AppType) (enabled : Bool) :
    Except AppError Unit × St :=
  if containsId st.store.mcp.servers id then
    let cfg' : MultiAppConfig :=
      { st.store with mcp := ⟨updateServers st.store.mcp.servers id a enabled⟩ }
    (.ok (), syncAppMcp cfg' a { st with store := cfg' })
  else
    (.error .notFound, st)

/-- Modelled from the spec: `deleteServer(cfg, serverId)` — remove the
entry if present (returning whether it existed), persist, then re-sync
every application that previously had the flag set for this server. -/
def delete_server (st : St) (id : String) : Bool × St :=
  match lookupServer st.store.mcp.servers id with
  | none => (false, st)
  | some e =>
    let cfg' : MultiAppConfig :=
      { st.store with mcp := ⟨removeServer st.store.mcp.servers id⟩ }
    let st1 := { st with store := cfg' }
    let st2 := if e.apps.claude then syncAppMcp cfg' .claude st1 else st1
    let st3 := if e.apps.codex then syncAppMcp cfg' .codex st2 else st2
    (true, if e.apps.gemini then syncAppMcp cfg' .gemini st3 else st3)

/-- The MCP entries of an application's live file: the fields of the
object under the reserved key, or none when the key is absent or not an
object. -/
def liveMcpEntries (st : St) (a : AppType) : List (String × JsonValue) :=
  match lookupKey (liveDocOrEmpty st a) mcpServersKey with
  | some (.obj fields) => fields
  | _ => []

/-- The entry created for a live entry imported from application `a`:
`apps` is true only for the source application. -/
def mkImportedEntry (a : AppType) (id : String) (spec : JsonValue) : McpServerEntry :=
  { name := id, spec := spec, apps := onlyApp a, tags := [] }

/-- Modelled from the spec: the insertion loop of `importFrom` — for each
live entry whose id is not already present, insert a new entry (apps true
only for the source application) and count it; entries already present by
id are left untouched. -/
def insertNew (a : AppType) (servers : List (String × McpServerEntry)) :
    List (String × JsonValue) → Nat × List (String × McpServerEntry)
  | [] => (0, servers)
  | (id, spec) :: rest =>
    if containsId servers id then insertNew a servers rest
    else
      let r := insertNew a (servers ++ [(id, mkImportedEntry a id spec)]) rest
      (r.1 + 1, r.2)

/-- Modelled from the spec: `importFrom(app, cfg)` — read the
application's live MCP section, insert the entries not already present by
id, persist, and return the number of newly inserted entries.  Live files
are only read, never written. -/
def import_from (a : AppType) (st : St) : Nat × St :=
  let r := insertNew a st.store.mcp.servers (liveMcpEntries st a)
  (r.1, { st with store := { st.store with mcp := ⟨r.2⟩ } })

end McpService

namespace ConfigService

/-- The timestamp-derived, collision-resistant backup name; modelled as a
counter over the backup directory. -/
def backupId (st : St) : String :=
  "backup-" ++ toString st.backups.length

/-- Modelled from the spec: `createBackup` — snapshot the current
persisted store into the backup directory under a fresh name and return
that name; fails with `IoError` when the backup directory cannot be
written, leaving everything unchanged. -/
def create_backup (st : St) : Except AppError String × St :=
  if st.backupDirWritable then
    (.ok (backupId st), { st with backups := st.backups ++ [(backupId st, st.store)] })
  else
    (.error .ioError, st)

/-- Modelled from the spec: `importConfigFromPath(path, store)` —
validates that `path` exists and parses as a UnifiedConfig document
(fails with `ParseError` otherwise), creates a backup of the current
persisted store, then replaces the persisted store's content with the
parsed document and returns the backup id.  If the backup step fails, no
mutation proceeds. -/
def import_config_from_path (path : String) (st : St) : Except AppError String × St :=
  match st.extFiles path with
  | none => (.error .parseError, st)
  | some none => (.error .parseError, st)
  | some (some cfg) =>
    match create_backup st with
    | (.error e, st') => (.error e, st')
    | (.ok bid, st1) => (.ok bid, { st1 with store := cfg })

end ConfigService

/-- The `mcp` subcommand set (src-tauri `McpCommand`). -/
inductive McpCommand where
  | List
  | Add
  | Edit (id : String)
  | Delete (id : String)
  | Enable (id : String)
  | Disable (id : String)
  | Validate (command : String)
  | Sync
  | Import

namespace McpCli

/-- Translated from `mcp.rs` `enable_server`: check that the server id
exists (failing with a not-found message otherwise, state untouched), then
run the service toggle with `enabled = true`. -/
def enable_server (st : St) (a : AppType) (id : String) : Except AppError Unit × St :=
  if containsId st.store.mcp.servers id then
    McpService.toggle_app st id a true
  else
    (.error (.message (mcpServerNotFoundMsg id)), st)

/-- Translated from `mcp.rs` `disable_server`: check that the server id
exists, then run the service toggle with `enabled = false`. -/
def disable_server (st : St) (a : AppType) (id : String) : Except AppError Unit × St :=
  if containsId st.store.mcp.servers id then
    McpService.toggle_app st id a false
  else
    (.error (.message (mcpServerNotFoundMsg id)), st)

/-- Translated from `mcp.rs` `delete_server`: check that the server id
exists, show the entry, ask for confirmation (`confirm` is the prompt's
answer); on decline return success without invoking the service delete. -/
def delete_server (st : St) (id : String) (confirm : Bool) : Except AppError Unit × St :=
  if containsId st.store.mcp.servers id then
    if confirm then
      (.ok (), (McpService.delete_server st id).2)
    else
      (.ok (), st)
  else
    (.error (.message (mcpServerNotFoundMsg id)), st)

/-- Translated from `mcp.rs` `sync_servers`: run the full sync. -/
def sync_servers (st : St) : Except AppError Unit × St :=
  (.ok (), McpService.sync_all_enabled st)

/-- Translated from `mcp.rs` `import_servers`: run the import for the
requested application and report the count. -/
def import_servers (st : St) (a : AppType) : Except AppError Unit × St :=
  (.ok (), (McpService.import_from a st).2)

/-- Translated from `mcp.rs` `execute`: the optional application argument
defaults to Claude (`app.unwrap_or(AppType::Claude)`); the command is then
dispatched.  List/Add/Edit/Validate only read or print, so they leave the
state unchanged here; Delete consumes the confirmation answer. -/
def execute (cmd : McpCommand) (app : Option AppType) (confirm : Bool) (st : St) :
    Except AppError Unit × St :=
  let app_type := app.getD AppType.claude
  match cmd with
  | .List => (.ok (), st)
  | .Add => (.ok (), st)
  | .Edit _ => (.ok (), st)
  | .Delete id => delete_server st id confirm
  | .Enable id => enable_server st app_type id
  | .Disable id => disable_server st app_type id
  | .Validate _ => (.ok (), st)
  | .Sync => sync_servers st
  | .Import => import_servers st app_type

end McpCli

namespace InteractiveConfig

/-- Translated from `interactive/config.rs` `import_config_interactive`:
error when the path does not exist; ask for confirmation; on decline
return success without touching anything; otherwise run the service
import-from-path. -/
def import_config_interactive (path : String) (confirm : Bool) (st : St) :
    Except AppError Unit × St :=
  if (st.extFiles path).isSome then
    if confirm then
      match ConfigService.import_config_from_path path st with
      | (.ok _, st') => (.ok (), st')
      | (.error e, st') => (.error e, st')
    else
      (.ok (), st)
  else
    (.error (.message (fileNotFoundMsg path)), st)

/-- Translated from `interactive/config.rs` `restore_config_interactive`:
identical mechanism to the import flow (both call the service
import-from-path after an existence check and a confirmation). -/
def restore_config_interactive (path : String) (confirm : Bool) (st : St) :
    Except AppError Unit × St :=
  if (st.extFiles path).isSome then
    if confirm then
      match ConfigService.import_config_from_path path st with
      | (.ok _, st') => (.ok (), st')
      | (.error e, st') => (.error e, st')
    else
      (.ok (), st)
  else
    (.error (.message (fileNotFoundMsg path)), st)

/-- Translated from `interactive/config.rs` `reset_config_interactive`:
ask for confirmation first (on decline return success untouched); create a
backup of the persisted store, propagating a backup failure before any
mutation; then delete the persisted file, after which a load yields the
default configuration. -/
def reset_config_interactive (confirm : Bool) (st : St) : Except AppError Unit × St :=
  if confirm then
    match ConfigService.create_backup st with
    | (.error e, st') => (.error e, st')
    | (.ok _, st1) => (.ok (), { st1 with store := defaultConfig })
  else
    (.ok (), st)

end InteractiveConfig

/-- A sample server entry used by the concrete witnesses. -/
def sampleEntry : McpServerEntry :=
  { name := "srv"
    spec := .obj [("command", .str "run")]
    apps := { claude := true, codex := false, gemini := false }
    tags := [] }

/-- A sample parsed external configuration document. -/
def sampleCfg : MultiAppConfig :=
  { apps := [], mcp := ⟨[("s9", sampleEntry)]⟩ }

/-- A sample world state used by the concrete witnesses: one registered
server, a Claude live file seeded with an unrelated key, integration
enabled, a writable backup directory and one importable external file. -/
def sampleSt : St :=
  { store := { apps := [], mcp := ⟨[("s1", sampleEntry)]⟩ }
    liveFiles := fun a => if a = .claude then some [("foo", .str "bar")] else none
    integrationEnabled := true
    backups := []
    backupDirWritable := true
    extFiles := fun p => if p = "cfg.json" then some (some sampleCfg) else none }

/-- The sample state with the integration toggle off. -/
def sampleStOff : St :=
  { sampleSt with integrationEnabled := false }

/-- The sample state with an unwritable backup directory. -/
def sampleStNoBackup : St :=
  { sampleSt with backupDirWritable := false }

/-- A sample third-party provider (no category). -/
def sampleProvider : Provider :=
  { id := "third-party", name := "Third Party", settings := .obj [], category := none }

/-- A sample built-in provider (category `"official"`). -/
def sampleOfficial : Provider :=
  { id := "official-p", name := "Official", settings := .obj [],
    category := some officialCategory }


theorem lookupKey_setKey_self (d : Doc) (k : String) (v : JsonValue) :
    lookupKey (setKey d k v) k = some v := by
  induction d with
  | nil => simp [setKey, lookupKey]
  | cons p rest ih =>
    obtain ⟨k', v'⟩ := p
    by_cases hk : k' = k
    · simp [setKey, hk, lookupKey]
    · simp [setKey, hk, lookupKey, ih]

theorem lookupKey_setKey_ne (d : Doc) (k k2 : String) (v : JsonValue) (h : k ≠ k2) :
    lookupKey (setKey d k v) k2 = lookupKey d k2 := by
  induction d with
  | nil => simp [setKey, lookupKey, h]
  | cons p rest ih =>
    obtain ⟨k', v'⟩ := p
    by_cases hk : k' = k
    · subst hk
      simp [setKey, lookupKey, h]
    · simp only [setKey, if_neg hk, lookupKey]
      by_cases h2 : k' = k2
      · simp [h2]
      · simp [h2, ih]

theorem lookupKey_removeKey_self (d : Doc) (k : String) :
    lookupKey (removeKey d k) k = none := by
  induction d with
  | nil => simp [removeKey, lookupKey]
  | cons p rest ih =>
    obtain ⟨k', v'⟩ := p
    by_cases hk : k' = k
    · simp [removeKey, hk, ih]
    · simp [removeKey, hk, lookupKey, ih]

theorem lookupKey_removeKey_ne (d : Doc) (k k2 : String) (h : k ≠ k2) :
    lookupKey (removeKey d k) k2 = lookupKey d k2 := by
  induction d with
  | nil => simp [removeKey]
  | cons p rest ih =>
    obtain ⟨k', v'⟩ := p
    by_cases hk : k' = k
    · subst hk
      simp [removeKey, lookupKey, h, ih]
    · simp only [removeKey, if_neg hk, lookupKey]
      by_cases h2 : k' = k2
      · simp [h2]
      · simp [h2, ih]

theorem setKey_setKey_same (d : Doc) (k : String) (v : JsonValue) :
    setKey (setKey d k v) k v = setKey d k v := by
  induction d with
  | nil => simp [setKey]
  | cons p rest ih =>
    obtain ⟨k', v'⟩ := p
    by_cases hk : k' = k
    · simp [setKey, hk]
    · simp [setKey, hk, ih]

theorem writeLive_liveFiles_self (st : St) (a : AppType) (d : Doc) :
    (writeLive st a d).liveFiles a = some d := by
  simp [writeLive]

theorem writeLive_liveFiles_ne (st : St) (a a' : AppType) (d : Doc) (h : a' ≠ a) :
    (writeLive st a d).liveFiles a' = st.liveFiles a' := by
  simp [writeLive, h]

theorem lookupLive_writeLive_set (st : St) (a0 a : AppType) (k0 k : String) (v : JsonValue)
    (h : k0 ≠ k) :
    lookupLive (writeLive st a0 (setKey (liveDocOrEmpty st a0) k0 v)) a k = lookupLive st a k := by
  by_cases ha : a = a0
  · subst ha
    rw [lookupLive, liveDocOrEmpty, writeLive_liveFiles_self, Option.getD_some]
    exact lookupKey_setKey_ne _ _ _ _ h
  · rw [lookupLive, liveDocOrEmpty, writeLive_liveFiles_ne st a0 a _ ha]
    rfl

theorem lookupLive_writeLive_remove (st : St) (a0 a : AppType) (k0 k : String)
    (h : k0 ≠ k) :
    lookupLive (writeLive st a0 (removeKey (liveDocOrEmpty st a0) k0)) a k = lookupLive st a k := by
  by_cases ha : a = a0
  · subst ha
    rw [lookupLive, liveDocOrEmpty, writeLive_liveFiles_self, Option.getD_some]
    exact lookupKey_removeKey_ne _ _ _ h
  · rw [lookupLive, liveDocOrEmpty, writeLive_liveFiles_ne st a0 a _ ha]
    rfl

theorem syncAppMcp_store (cfg : MultiAppConfig) (a : AppType) (st : St) :
    (syncAppMcp cfg a st).store = st.store := rfl

theorem syncAppMcp_liveFiles_self (cfg : MultiAppConfig) (a : AppType) (st : St) :
    (syncAppMcp cfg a st).liveFiles a =
      some (setKey (liveDocOrEmpty st a) mcpServersKey (projectMcp cfg a)) := by
  simp [syncAppMcp, writeLive]

theorem syncAppMcp_liveFiles_ne (cfg : MultiAppConfig) (a a' : AppType) (st : St)
    (h : a' ≠ a) :
    (syncAppMcp cfg a st).liveFiles a' = st.liveFiles a' := by
  simp [syncAppMcp, writeLive, h]

theorem sync_all_store (st : St) :
    (McpService.sync_all_enabled st).store = st.store := rfl

theorem sync_all_liveFiles (st : St) (a : AppType) :
    (McpService.sync_all_enabled st).liveFiles a =
      some (setKey (liveDocOrEmpty st a) mcpServersKey (projectMcp st.store a)) := by
  cases a <;>
    simp [McpService.sync_all_enabled, syncAppMcp, writeLive, liveDocOrEmpty]

theorem containsId_cons (id' : String) (e : McpServerEntry)
    (rest : List (String × McpServerEntry)) (id : String) :
    containsId ((id', e) :: rest) id = ((id' == id) || containsId rest id) := by
  simp [containsId]

theorem containsId_append (s t : List (String × McpServerEntry)) (id : String) :
    containsId (s ++ t) id = (containsId s id || containsId t id) := by
  simp [containsId, List.any_append]

theorem lookupServer_append_of_isSome (s t : List (String × McpServerEntry)) (id : String)
    (h : (lookupServer s id).isSome = true) :
    lookupServer (s ++ t) id = lookupServer s id := by
  induction s with
  | nil => simp [lookupServer] at h
  | cons p rest ih =>
    obtain ⟨id', e⟩ := p
    by_cases hk : id' = id
    · simp [lookupServer, hk]
    · simp only [lookupServer, if_neg hk] at h ⊢
      exact ih h

theorem lookupServer_append_of_none (s t : List (String × McpServerEntry)) (id : String)
    (h : lookupServer s id = none) :
    lookupServer (s ++ t) id = lookupServer t id := by
  induction s with
  | nil => rfl
  | cons p rest ih =>
    obtain ⟨id', e⟩ := p
    by_cases hk : id' = id
    · simp [lookupServer, hk] at h
    · simp only [lookupServer, if_neg hk] at h ⊢
      exact ih h

theorem containsId_eq_isSome (s : List (String × McpServerEntry)) (id : String) :
    containsId s id = (lookupServer s id).isSome := by
  induction s with
  | nil => rfl
  | cons p rest ih =>
    obtain ⟨id', e⟩ := p
    by_cases hk : id' = id
    · simp [containsId_cons, lookupServer, hk]
    · simp [containsId_cons, lookupServer, hk, ih]

theorem lookupServer_updateServers (s : List (String × McpServerEntry)) (id : String)
    (a : AppType) (b : Bool) (e : McpServerEntry) (h : lookupServer s id = some e) :
    lookupServer (updateServers s id a b) id = some { e with apps := setFlag a b e.apps } := by
  induction s with
  | nil => simp [lookupServer] at h
  | cons p rest ih =>
    obtain ⟨id', e'⟩ := p
    by_cases hk : id' = id
    · subst hk
      simp only [lookupServer, if_pos rfl] at h
      injection h with h
      subst h
      simp [updateServers, lookupServer]
    · simp only [lookupServer, if_neg hk] at h
      simp only [updateServers, if_neg hk]
      simpa [lookupServer, hk] using ih h

theorem insertNew_contains_mono (a : AppType) (es : List (String × JsonValue))
    (s : List (String × McpServerEntry)) (id : String) (h : containsId s id = true) :
    containsId (McpService.insertNew a s es).2 id = true := by
  induction es generalizing s with
  | nil => simpa [McpService.insertNew] using h
  | cons q rest ih =>
    obtain ⟨id0, sp⟩ := q
    by_cases h0 : containsId s id0 = true
    · simp only [McpService.insertNew, h0, if_true]
      exact ih s h
    · simp only [McpService.insertNew, h0, if_false, Bool.false_eq_true]
      exact ih _ (by rw [containsId_append]; simp [h])

theorem insertNew_contains_entries (a : AppType) (es : List (String × JsonValue))
    (s : List (String × McpServerEntry)) :
    ∀ p ∈ es, containsId (McpService.insertNew a s es).2 p.1 = true := by
  induction es generalizing s with
  | nil => intro p hp; cases hp
  | cons q rest ih =>
    intro p hp
    obtain ⟨id0, sp⟩ := q
    rcases List.mem_cons.mp hp with hp | hp
    · subst hp
      by_cases h0 : containsId s id0 = true
      · simp only [McpService.insertNew, h0, if_true]
        exact insertNew_contains_mono a rest s id0 h0
      · simp only [McpService.insertNew, h0, if_false, Bool.false_eq_true]
        refine insertNew_contains_mono a rest _ id0 ?_
        rw [containsId_append]
        simp [containsId]
    · by_cases h0 : containsId s id0 = true
      · simp only [McpService.insertNew, h0, if_true]
        exact ih s p hp
      · simp only [McpService.insertNew, h0, if_false, Bool.false_eq_true]
        exact ih _ p hp

theorem insertNew_all_present (a : AppType) (es : List (String × JsonValue))
    (s : List (String × McpServerEntry)) (h : ∀ p ∈ es, containsId s p.1 = true) :
    McpService.insertNew a s es = (0, s) := by
  induction es with
  | nil => rfl
  | cons q rest ih =>
    obtain ⟨id0, sp⟩ := q
    have h0 : containsId s id0 = true := h (id0, sp) (List.mem_cons_self _ _)
    simp only [McpService.insertNew, h0, if_true]
    exact ih (fun p hp => h p (List.mem_cons_of_mem _ hp))

theorem insertNew_length (a : AppType) (es : List (String × JsonValue))
    (s : List (String × McpServerEntry)) :
    (McpService.insertNew a s es).2.length = s.length + (McpService.insertNew a s es).1 := by
  induction es generalizing s with
  | nil => simp [McpService.insertNew]
  | cons q rest ih =>
    obtain ⟨id0, sp⟩ := q
    by_cases h0 : containsId s id0 = true
    · simp only [McpService.insertNew, h0, if_true]
      exact ih s
    · simp only [McpService.insertNew, h0, if_false, Bool.false_eq_true]
      have := ih (s ++ [(id0, McpService.mkImportedEntry a id0 sp)])
      simp only [List.length_append, List.length_cons, List.length_nil] at this
      omega

theorem insertNew_preserves (a : AppType) (es : List (String × JsonValue))
    (s : List (String × McpServerEntry)) (id : String)
    (h : (lookupServer s id).isSome = true) :
    lookupServer (McpService.insertNew a s es).2 id = lookupServer s id := by
  induction es generalizing s with
  | nil => rfl
  | cons q rest ih =>
    obtain ⟨id0, sp⟩ := q
    by_cases h0 : containsId s id0 = true
    · simp only [McpService.insertNew, h0, if_true]
      exact ih s h
    · simp only [McpService.insertNew, h0, if_false, Bool.false_eq_true]
      rw [ih _ (by rw [lookupServer_append_of_isSome s _ id h]; exact h),
        lookupServer_append_of_isSome s _ id h]

theorem insertNew_new_only_app (a : AppType) (es : List (String × JsonValue))
    (s : List (String × McpServerEntry)) (id : String)
    (hnone : lookupServer s id = none) :
    ∀ e, lookupServer (McpService.insertNew a s es).2 id = some e → e.apps = onlyApp a := by
  induction es generalizing s with
  | nil =>
    intro e he
    simp only [McpService.insertNew] at he
    rw [hnone] at he
    cases he
  | cons q rest ih =>
    obtain ⟨id0, sp⟩ := q
    intro e he
    by_cases h0 : containsId s id0 = true
    · simp only [McpService.insertNew, h0, if_true] at he
      exact ih s hnone e he
    · simp only [McpService.insertNew, h0, if_false, Bool.false_eq_true] at he
      by_cases hid : id0 = id
      · subst hid
        have hs' : lookupServer (s ++ [(id0, McpService.mkImportedEntry a id0 sp)]) id0 =
            some (McpService.mkImportedEntry a id0 sp) := by
          rw [lookupServer_append_of_none s _ id0 hnone]
          simp [lookupServer]
        rw [insertNew_preserves a rest _ id0 (by rw [hs']; rfl), hs'] at he
        cases he
        rfl
      · have hs' : lookupServer (s ++ [(id0, McpService.mkImportedEntry a id0 sp)]) id = none := by
          rw [lookupServer_append_of_none s _ id hnone]
          simp [lookupServer, hid]
        exact ih _ hs' e he

/-- C1: for every live file containing a key outside the sync contract
(different from `primaryApiKey` and from the reserved MCP servers key),
every write performed by setEnableIntegration, syncOnSettingsToggle,
syncOnProviderSwitch, toggleApp or syncAllEnabled leaves that key and its
value unchanged in every application's live file. -/
theorem unrelated_key_preservation (st : St) (k : String)
    (h1 : k ≠ primaryApiKey) (h2 : k ≠ mcpServersKey) :
    (∀ b a, lookupLive (set_enable_claude_plugin_integration b st) a k = lookupLive st a k) ∧
    (∀ b a, lookupLive (sync_claude_plugin_on_settings_toggle b st) a k = lookupLive st a k) ∧
    (∀ app p a,
        lookupLive (sync_claude_plugin_on_provider_switch app p st) a k = lookupLive st a k) ∧
    (∀ id app enabled a,
        lookupLive (McpService.toggle_app st id app enabled).2 a k = lookupLive st a k) ∧
    (∀ a, lookupLive (McpService.sync_all_enabled st) a k = lookupLive st a k) := by
  refine ⟨fun b a => rfl, ?_, ?_, ?_, ?_⟩
  · intro b a
    cases b
    · exact lookupLive_writeLive_remove st .claude a primaryApiKey k (Ne.symm h1)
    · exact lookupLive_writeLive_set st .claude a primaryApiKey k _ (Ne.symm h1)
  · intro app p a
    rw [sync_claude_plugin_on_provider_switch]
    by_cases happ : app = AppType.claude
    · rw [if_pos happ]
      by_cases hi : st.integrationEnabled = true
      · rw [if_pos hi]
        by_cases hcat : p.category = some officialCategory
        · rw [if_pos hcat]
          exact lookupLive_writeLive_remove st .claude a primaryApiKey k (Ne.symm h1)
        · rw [if_neg hcat]
          exact lookupLive_writeLive_set st .claude a primaryApiKey k _ (Ne.symm h1)
      · rw [if_neg hi]
    · rw [if_neg happ]
  · intro id app enabled a
    by_cases hc : containsId st.store.mcp.servers id = true
    · have hstate : (McpService.toggle_app st id app enabled).2 =
          syncAppMcp
            { st.store with mcp := ⟨updateServers st.store.mcp.servers id app enabled⟩ } app
            { st with
                store :=
                  { st.store with mcp := ⟨updateServers st.store.mcp.servers id app enabled⟩ } } := by
        simp [McpService.toggle_app, hc]
      rw [hstate]
      exact lookupLive_writeLive_set _ app a mcpServersKey k _ (Ne.symm h2)
    · simp [McpService.toggle_app, hc]
  · intro a
    rw [lookupLive, liveDocOrEmpty, sync_all_liveFiles, Option.getD_some]
    exact lookupKey_setKey_ne _ _ _ _ (Ne.symm h2)

/-- C1 witness: on the sample state seeded with `"foo" : "bar"`, the
settings-toggle write leaves the unrelated key unchanged. -/
theorem unrelated_key_preservation_witness :
    (("foo" : String) ≠ primaryApiKey ∧ ("foo" : String) ≠ mcpServersKey) ∧
    lookupLive (sync_claude_plugin_on_settings_toggle true sampleSt) AppType.claude "foo" =
      lookupLive sampleSt AppType.claude "foo" :=
  ⟨⟨by decide, by decide⟩,
   (unrelated_key_preservation sampleSt "foo" (by decide) (by decide)).2.1 true AppType.claude⟩

/-- C2: syncOnProviderSwitch is a no-op when the global integration toggle
is off (no live-file change, no creation of a missing file); when the
toggle is on it clears `primaryApiKey` for an official provider and sets
it to the sentinel `"any"` for every other provider. -/
theorem provider_switch_integration_behavior (st : St) (p : Provider) :
    (st.integrationEnabled = false →
        sync_claude_plugin_on_provider_switch AppType.claude p st = st) ∧
    (st.integrationEnabled = true → p.category = some officialCategory →
        lookupLive (sync_claude_plugin_on_provider_switch AppType.claude p st)
          AppType.claude primaryApiKey = none) ∧
    (st.integrationEnabled = true → p.category ≠ some officialCategory →
        lookupLive (sync_claude_plugin_on_provider_switch AppType.claude p st)
          AppType.claude primaryApiKey = some (JsonValue.str sentinelAny)) := by
  refine ⟨?_, ?_, ?_⟩
  · intro h
    simp [sync_claude_plugin_on_provider_switch, h]
  · intro hi hcat
    simp only [sync_claude_plugin_on_provider_switch, if_pos rfl, hi, if_true, hcat]
    rw [lookupLive, liveDocOrEmpty, writeLive_liveFiles_self, Option.getD_some,
      lookupKey_removeKey_self]
  · intro hi hcat
    simp only [sync_claude_plugin_on_provider_switch, if_pos rfl, hi, if_true, hcat,
      if_false]
    rw [lookupLive, liveDocOrEmpty, writeLive_liveFiles_self, Option.getD_some,
      lookupKey_setKey_self]

/-- C2 witness: with the toggle off on the sample state, a provider switch
changes nothing. -/
theorem provider_switch_integration_behavior_witness :
    sampleStOff.integrationEnabled = false ∧
    sync_claude_plugin_on_provider_switch AppType.claude sampleProvider sampleStOff =
      sampleStOff :=
  ⟨rfl, (provider_switch_integration_behavior sampleStOff sampleProvider).1 rfl⟩

/-- C3: running syncAllEnabled twice in a row with no intervening mutation
produces identical live files on the second run; moreover after a sync
every application's live MCP section is exactly the projection of the
unified configuration. -/
theorem sync_all_enabled_idempotent (st : St) :
    (McpService.sync_all_enabled (McpService.sync_all_enabled st)).liveFiles =
      (McpService.sync_all_enabled st).liveFiles ∧
    ∀ a, lookupLive (McpService.sync_all_enabled st) a mcpServersKey =
      some (projectMcp st.store a) := by
  constructor
  · funext a
    rw [sync_all_liveFiles, sync_all_liveFiles, sync_all_store]
    have h : liveDocOrEmpty (McpService.sync_all_enabled st) a =
        setKey (liveDocOrEmpty st a) mcpServersKey (projectMcp st.store a) := by
      rw [liveDocOrEmpty, sync_all_liveFiles, Option.getD_some]
    rw [h, setKey_setKey_same]
  · intro a
    rw [lookupLive, liveDocOrEmpty, sync_all_liveFiles, Option.getD_some,
      lookupKey_setKey_self]

/-- C5: concrete scenario — seed the Claude live file with `{"foo":"bar"}`,
enable integration and toggle settings on: the file becomes
`{"foo":"bar","primaryApiKey":"any"}`; disable and toggle settings off:
the file is `{"foo":"bar"}` again. -/
theorem settings_toggle_concrete_scenario :
    liveDocOrEmpty
        (sync_claude_plugin_on_settings_toggle true
          (set_enable_claude_plugin_integration true sampleStOff)) AppType.claude =
      [("foo", JsonValue.str "bar"), (primaryApiKey, JsonValue.str sentinelAny)] ∧
    liveDocOrEmpty
        (sync_claude_plugin_on_settings_toggle false
          (set_enable_claude_plugin_integration false
            (sync_claude_plugin_on_settings_toggle true
              (set_enable_claude_plugin_integration true sampleStOff)))) AppType.claude =
      [("foo", JsonValue.str "bar")] :=
  ⟨rfl, rfl⟩

/-- C4: importFrom inserts a new entry only for each live entry whose id is
not already present (apps true only for the source application), returns
exactly the number of newly inserted entries, never overwrites an existing
entry on id collision, never writes live files, and a second import from
the unchanged live file returns zero and changes nothing. -/
theorem import_from_idempotent_no_overwrite (st : St) (a : AppType) :
    (∀ id, (lookupServer st.store.mcp.servers id).isSome = true →
        lookupServer (McpService.import_from a st).2.store.mcp.servers id =
          lookupServer st.store.mcp.servers id) ∧
    (McpService.import_from a st).2.store.mcp.servers.length =
        st.store.mcp.servers.length + (McpService.import_from a st).1 ∧
    (McpService.import_from a st).2.liveFiles = st.liveFiles ∧
    (∀ id e, lookupServer st.store.mcp.servers id = none →
        lookupServer (McpService.import_from a st).2.store.mcp.servers id = some e →
        e.apps = onlyApp a) ∧
    McpService.import_from a (McpService.import_from a st).2 =
      (0, (McpService.import_from a st).2) := by
  refine ⟨?_, ?_, rfl, ?_, ?_⟩
  · intro id h
    exact insertNew_preserves a _ _ id h
  · exact insertNew_length a _ _
  · intro id e hnone he
    exact insertNew_new_only_app a _ _ id hnone e he
  · have hall : ∀ p ∈ McpService.liveMcpEntries st a,
        containsId (McpService.insertNew a st.store.mcp.servers
          (McpService.liveMcpEntries st a)).2 p.1 = true :=
      insertNew_contains_entries a _ _
    have h2 : McpService.insertNew a
        (McpService.insertNew a st.store.mcp.servers (McpService.liveMcpEntries st a)).2
        (McpService.liveMcpEntries st a) =
        (0, (McpService.insertNew a st.store.mcp.servers (McpService.liveMcpEntries st a)).2) :=
      insertNew_all_present a _ _ hall
    have hshape : McpService.import_from a (McpService.import_from a st).2 =
        ((McpService.insertNew a
           (McpService.insertNew a st.store.mcp.servers (McpService.liveMcpEntries st a)).2
           (McpService.liveMcpEntries st a)).1,
         { st with
             store :=
               { st.store with
                   mcp := ⟨(McpService.insertNew a
                     (McpService.insertNew a st.store.mcp.servers
                       (McpService.liveMcpEntries st a)).2
                     (McpService.liveMcpEntries st a)).2⟩ } }) := rfl
    rw [hshape, h2]
    rfl

/-- C4 witness: on the sample state the already-registered id `s1` is not
overwritten by an import from the Claude live file. -/
theorem import_from_idempotent_no_overwrite_witness :
    (lookupServer sampleSt.store.mcp.servers "s1").isSome = true ∧
    lookupServer (McpService.import_from AppType.claude sampleSt).2.store.mcp.servers "s1" =
      lookupServer sampleSt.store.mcp.servers "s1" :=
  ⟨rfl, (import_from_idempotent_no_overwrite sampleSt AppType.claude).1 "s1" rfl⟩

theorem import_path_error_frame (st : St) (path : String) (e : AppError) (st' : St)
    (h : ConfigService.import_config_from_path path st = (.error e, st')) : st' = st := by
  rcases hx : st.extFiles path with _ | cfgo
  · simp [ConfigService.import_config_from_path, hx, Prod.ext_iff] at h
    exact h.2.symm
  · rcases cfgo with _ | cfg
    · simp [ConfigService.import_config_from_path, hx, Prod.ext_iff] at h
      exact h.2.symm
    · by_cases hw : st.backupDirWritable = true
      · simp [ConfigService.import_config_from_path, ConfigService.create_backup, hx, hw] at h
      · simp [ConfigService.import_config_from_path, ConfigService.create_backup, hx, hw,
          Prod.ext_iff] at h
        exact h.2.symm

theorem restore_error_frame (st : St) (path : String) (confirm : Bool) (e : AppError)
    (st' : St)
    (h : InteractiveConfig.restore_config_interactive path confirm st = (.error e, st')) :
    st' = st := by
  by_cases hex : (st.extFiles path).isSome = true
  · cases confirm
    · simp [InteractiveConfig.restore_config_interactive, hex] at h
    · simp only [InteractiveConfig.restore_config_interactive, hex, if_true] at h
      rcases hres : ConfigService.import_config_from_path path st with ⟨r, st1⟩
      rw [hres] at h
      cases r with
      | ok bid => simp at h
      | error e1 =>
        simp [Prod.ext_iff] at h
        exact h.2.symm.trans (import_path_error_frame st path e1 st1 hres)
  · simp [InteractiveConfig.restore_config_interactive, hex, Prod.ext_iff] at h
    exact h.2.symm

theorem reset_error_frame (st : St) (confirm : Bool) (e : AppError) (st' : St)
    (h : InteractiveConfig.reset_config_interactive confirm st = (.error e, st')) :
    st' = st := by
  cases confirm
  · simp [InteractiveConfig.reset_config_interactive] at h
  · by_cases hw : st.backupDirWritable = true
    · simp [InteractiveConfig.reset_config_interactive, ConfigService.create_backup, hw] at h
    · simp [InteractiveConfig.reset_config_interactive, ConfigService.create_backup, hw,
        Prod.ext_iff] at h
      exact h.2.symm

/-- C6: importConfigFromPath fails with ParseError (store untouched)
unless the path exists and parses as a UnifiedConfig document; on success
it first snapshots the current persisted store into the backup directory
and then replaces the store, returning the backup id; and in the
data-losing flows (import-from-path, restore, reset) an error outcome —
in particular a failed backup step — never mutates the state. -/
theorem import_config_backup_before_mutate (st : St) (path : String) :
    (st.extFiles path = none →
        ConfigService.import_config_from_path path st = (.error .parseError, st)) ∧
    (st.extFiles path = some none →
        ConfigService.import_config_from_path path st = (.error .parseError, st)) ∧
    (∀ cfg, st.extFiles path = some (some cfg) →
        (st.backupDirWritable = false →
            ConfigService.import_config_from_path path st = (.error .ioError, st)) ∧
        (st.backupDirWritable = true →
            ConfigService.import_config_from_path path st =
              (.ok (ConfigService.backupId st),
                { st with
                    store := cfg
                    backups := st.backups ++ [(ConfigService.backupId st, st.store)] }))) ∧
    (st.backupDirWritable = false →
        InteractiveConfig.reset_config_interactive true st = (.error .ioError, st)) ∧
    (∀ e st', ConfigService.import_config_from_path path st = (.error e, st') → st' = st) ∧
    (∀ confirm e st',
        InteractiveConfig.restore_config_interactive path confirm st = (.error e, st') →
          st' = st) ∧
    (∀ confirm e st',
        InteractiveConfig.reset_config_interactive confirm st = (.error e, st') → st' = st) := by
  refine ⟨?_, ?_, ?_, ?_, import_path_error_frame st path,
    restore_error_frame st path, reset_error_frame st⟩
  · intro h
    simp [ConfigService.import_config_from_path, h]
  · intro h
    simp [ConfigService.import_config_from_path, h]
  · intro cfg h
    constructor
    · intro hw
      simp [ConfigService.import_config_from_path, ConfigService.create_backup, h, hw]
    · intro hw
      simp [ConfigService.import_config_from_path, ConfigService.create_backup, h, hw]
  · intro hw
    simp [InteractiveConfig.reset_config_interactive, ConfigService.create_backup, hw]

/-- C6 witness: on the sample state the import succeeds, snapshotting the
old store before replacing it with the parsed document. -/
theorem import_config_backup_before_mutate_witness :
    sampleSt.extFiles "cfg.json" = some (some sampleCfg) ∧
    sampleSt.backupDirWritable = true ∧
    ConfigService.import_config_from_path "cfg.json" sampleSt =
      (.ok (ConfigService.backupId sampleSt),
        { sampleSt with
            store := sampleCfg
            backups := sampleSt.backups ++ [(ConfigService.backupId sampleSt, sampleSt.store)] }) :=
  ⟨rfl, rfl,
   ((import_config_backup_before_mutate sampleSt "cfg.json").2.2.1 sampleCfg rfl).2 rfl⟩

/-- C7: for an absent server id the enable/disable commands fail (untyped
not-found message at the CLI layer, `NotFoundError` at the service layer)
leaving the unified store and all live files unchanged; for a present id
the service flips the flag for the given application, persists the unified
configuration and re-runs the live-file projection for that single
application only. -/
theorem toggle_app_not_found_and_projection (st : St) (a : AppType) (id : String) :
    (containsId st.store.mcp.servers id = false →
        McpCli.enable_server st a id = (.error (.message (mcpServerNotFoundMsg id)), st) ∧
        McpCli.disable_server st a id = (.error (.message (mcpServerNotFoundMsg id)), st) ∧
        ∀ enabled, McpService.toggle_app st id a enabled = (.error .notFound, st)) ∧
    (containsId st.store.mcp.servers id = true → ∀ enabled,
        (McpService.toggle_app st id a enabled).1 = .ok () ∧
        McpCli.enable_server st a id = McpService.toggle_app st id a true ∧
        McpCli.disable_server st a id = McpService.toggle_app st id a false ∧
        (McpService.toggle_app st id a enabled).2.store =
          { st.store with mcp := ⟨updateServers st.store.mcp.servers id a enabled⟩ } ∧
        (∀ e, lookupServer st.store.mcp.servers id = some e →
            lookupServer (McpService.toggle_app st id a enabled).2.store.mcp.servers id =
              some { e with apps := setFlag a enabled e.apps }) ∧
        (∀ a', a' ≠ a →
            (McpService.toggle_app st id a enabled).2.liveFiles a' = st.liveFiles a') ∧
        (McpService.toggle_app st id a enabled).2.liveFiles a =
          some (setKey (liveDocOrEmpty st a) mcpServersKey
            (projectMcp (McpService.toggle_app st id a enabled).2.store a))) := by
  constructor
  · intro h
    refine ⟨?_, ?_, fun enabled => ?_⟩
    · simp [McpCli.enable_server, h]
    · simp [McpCli.disable_server, h]
    · simp [McpService.toggle_app, h]
  · intro h enabled
    have hstate : (McpService.toggle_app st id a enabled).2 =
        syncAppMcp
          { st.store with mcp := ⟨updateServers st.store.mcp.servers id a enabled⟩ } a
          { st with
              store :=
                { st.store with mcp := ⟨updateServers st.store.mcp.servers id a enabled⟩ } } := by
      simp [McpService.toggle_app, h]
    refine ⟨by simp [McpService.toggle_app, h], by simp [McpCli.enable_server, h],
      by simp [McpCli.disable_server, h], ?_, ?_, ?_, ?_⟩
    · rw [hstate, syncAppMcp_store]
    · intro e he
      have : (McpService.toggle_app st id a enabled).2.store.mcp.servers =
          updateServers st.store.mcp.servers id a enabled := by
        rw [hstate, syncAppMcp_store]
      rw [this]
      exact lookupServer_updateServers st.store.mcp.servers id a enabled e he
    · intro a' ha'
      rw [hstate, syncAppMcp_liveFiles_ne _ _ _ _ ha']
    · rw [hstate, syncAppMcp_liveFiles_self, syncAppMcp_store]
      rfl

/-- C7 witness: the sample registry contains `s1`, and enabling it for
Codex succeeds at the service layer. -/
theorem toggle_app_not_found_and_projection_witness :
    containsId sampleSt.store.mcp.servers "s1" = true ∧
    (McpService.toggle_app sampleSt "s1" AppType.codex true).1 = .ok () :=
  ⟨rfl, ((toggle_app_not_found_and_projection sampleSt AppType.codex "s1").2 rfl true).1⟩

/-- C9: `execute` resolves a missing application argument to Claude
(`app.unwrap_or(AppType::Claude)`), so every mcp subcommand behaves as if
Claude had been passed explicitly; in particular list/enable/disable/import
target Claude's perspective and live file. -/
theorem mcp_execute_defaults_to_claude (cmd : McpCommand) (confirm : Bool) (st : St) :
    McpCli.execute cmd none confirm st = McpCli.execute cmd (some AppType.claude) confirm st ∧
    (∀ id,
        McpCli.execute (McpCommand.Enable id) none confirm st =
          McpCli.enable_server st AppType.claude id) ∧
    (∀ id,
        McpCli.execute (McpCommand.Disable id) none confirm st =
          McpCli.disable_server st AppType.claude id) ∧
    McpCli.execute McpCommand.Import none confirm st =
      McpCli.import_servers st AppType.claude ∧
    McpCli.execute McpCommand.List none confirm st = (.ok (), st) := by
  refine ⟨?_, fun id => rfl, fun id => rfl, rfl, rfl⟩
  cases cmd <;> rfl

/-- C10: in each data-losing flow of the sources — MCP server delete,
config import, config restore, config reset — declining the confirmation
prompt returns success and leaves the whole state (unified store, live
files, backup directory) unchanged: the mutating service operation is
never invoked. -/
theorem declined_confirmation_no_mutation (st : St) (id path : String) :
    (containsId st.store.mcp.servers id = true →
        McpCli.delete_server st id false = (.ok (), st)) ∧
    ((st.extFiles path).isSome = true →
        InteractiveConfig.import_config_interactive path false st = (.ok (), st)) ∧
    ((st.extFiles path).isSome = true →
        InteractiveConfig.restore_config_interactive path false st = (.ok (), st)) ∧
    InteractiveConfig.reset_config_interactive false st = (.ok (), st) := by
  refine ⟨?_, ?_, ?_, rfl⟩
  · intro h
    simp [McpCli.delete_server, h]
  · intro h
    simp [InteractiveConfig.import_config_interactive, h]
  · intro h
    simp [InteractiveConfig.restore_config_interactive, h]

/-- C10 witness: declining the delete confirmation for the present id `s1`
on the sample state returns success with the state unchanged. -/
theorem declined_confirmation_no_mutation_witness :
    containsId sampleSt.store.mcp.servers "s1" = true ∧
    McpCli.delete_server sampleSt "s1" false = (.ok (), sampleSt) :=
  ⟨rfl, (declined_confirmation_no_mutation sampleSt "s1" "cfg.json").1 rfl⟩
